import Mathlib

/-!
Verification of the BIM production-planning notebooks
(`notebooks/02/04-bim-maxmin.ipynb`, `notebooks/02/05-bim-fractional.ipynb`).

The notebooks build small linear programs via Pyomo and hand them to an LP
solver.  We embed the models shallowly over `ℚ`: each Pyomo variable domain
becomes a predicate, each constraint a proposition, each objective a rational
function, and each notebook's top-level flow a list of actions with a small
operational semantics.
-/

namespace BIMBook

/-- Pyomo variable domains used by the notebooks (`pyo.Var(domain=...)`;
a bare `pyo.Var()` has domain `Reals`). -/
inductive Domain where
  | Reals
  | NonNegativeReals
  | PositiveReals
deriving DecidableEq

/-- The set of values a Pyomo domain admits. -/
def Domain.holds : Domain → ℚ → Prop
  | .Reals => fun _ => True
  | .NonNegativeReals => fun v => 0 ≤ v
  | .PositiveReals => fun v => 0 < v

instance (d : Domain) (v : ℚ) : Decidable (d.holds v) := by
  cases d <;> simp only [Domain.holds] <;> infer_instance

/-! ### Notebook 05, first model: `BIM_with_revenues_minus_costs` -/

/-- `m.revenue = 12 * m.x1 + 9 * m.x2`. -/
def revenue (x1 x2 : ℚ) : ℚ := 12 * x1 + 9 * x2

/-- `m.variable_cost = 7/6 * m.x1 + 5/6 * m.x2`. -/
def variable_cost (x1 x2 : ℚ) : ℚ := 7 / 6 * x1 + 5 / 6 * x2

/-- `m.fixed_cost = 100`. -/
def fixed_cost : ℚ := 100

/-- The objective of `BIM_with_revenues_minus_costs`:
`m.revenue - m.variable_cost - m.fixed_cost`, maximized. -/
def profit (x1 x2 : ℚ) : ℚ := revenue x1 x2 - variable_cost x1 x2 - fixed_cost

/-- `m.silicon`: `m.x1 <= 1000`. -/
def silicon (x1 x2 : ℚ) : Prop := x1 ≤ 1000

/-- `m.germanium`: `m.x2 <= 1500`. -/
def germanium (x1 x2 : ℚ) : Prop := x2 ≤ 1500

/-- `m.plastic`: `m.x1 + m.x2 <= 1750`. -/
def plastic (x1 x2 : ℚ) : Prop := x1 + x2 ≤ 1750

/-- `m.copper`: `4 * m.x1 + 2 * m.x2 <= 4800`. -/
def copper (x1 x2 : ℚ) : Prop := 4 * x1 + 2 * x2 ≤ 4800

instance (x1 x2 : ℚ) : Decidable (silicon x1 x2) := by unfold silicon; infer_instance

instance (x1 x2 : ℚ) : Decidable (germanium x1 x2) := by unfold germanium; infer_instance

instance (x1 x2 : ℚ) : Decidable (plastic x1 x2) := by unfold plastic; infer_instance

instance (x1 x2 : ℚ) : Decidable (copper x1 x2) := by unfold copper; infer_instance

/-- Variable domains of `BIM_with_revenues_minus_costs`, in declaration order
(`x1`, `x2`, both `NonNegativeReals`). -/
def linearVarDomains : List Domain := [.NonNegativeReals, .NonNegativeReals]

/-- Feasible set of `BIM_with_revenues_minus_costs`: the two variable domains
plus the four resource constraints. -/
def linearFeasible (x1 x2 : ℚ) : Prop :=
  Domain.holds .NonNegativeReals x1 ∧ Domain.holds .NonNegativeReals x2 ∧
  silicon x1 x2 ∧ germanium x1 x2 ∧ plastic x1 x2 ∧ copper x1 x2

instance (x1 x2 : ℚ) : Decidable (linearFeasible x1 x2) := by
  unfold linearFeasible; infer_instance

/-- **C1.** For the model built by `BIM_with_revenues_minus_costs`, the point
`x = (650, 1100)` is feasible, attains objective value `15925`, and every
feasible point has objective value at most `15925`. -/
theorem claim_C1 :
    linearFeasible 650 1100 ∧ profit 650 1100 = 15925 ∧
    ∀ x1 x2 : ℚ, linearFeasible x1 x2 → profit x1 x2 ≤ 15925 := by
  refine ⟨by norm_num [linearFeasible, silicon, germanium, plastic, copper, Domain.holds],
    by norm_num [profit, revenue, variable_cost, fixed_cost], ?_⟩
  intro x1 x2 h
  obtain ⟨hx1, hx2, hsi, hge, hpl, hcu⟩ := h
  simp only [Domain.holds] at hx1 hx2
  simp only [silicon, germanium, plastic, copper] at hsi hge hpl hcu
  simp only [profit, revenue, variable_cost, fixed_cost]
  linarith

/-- Witness for C1: the optimality bound applied at the concrete feasible
point `(650, 1100)`. -/
theorem claim_C1_witness : profit 650 1100 ≤ 15925 :=
  claim_C1.2.2 650 1100
    (by norm_num [linearFeasible, silicon, germanium, plastic, copper, Domain.holds])

/-! ### Notebook 05, second model: `BIM_with_revenues_over_costs` -/

/-- Variable domains of `BIM_with_revenues_over_costs`, in declaration order
(`y1`, `y2` are `NonNegativeReals`, `t` is `PositiveReals`). -/
def fracVarDomains : List Domain := [.NonNegativeReals, .NonNegativeReals, .PositiveReals]

/-- `m.silicon`: `m.y1 <= 1000 * m.t`. -/
def siliconScaled (y1 y2 t : ℚ) : Prop := y1 ≤ 1000 * t

/-- `m.germanium`: `m.y2 <= 1500 * m.t`. -/
def germaniumScaled (y1 y2 t : ℚ) : Prop := y2 ≤ 1500 * t

/-- `m.plastic`: `m.y1 + m.y2 <= 1750 * m.t`. -/
def plasticScaled (y1 y2 t : ℚ) : Prop := y1 + y2 ≤ 1750 * t

/-- `m.copper`: `4 * m.y1 + 2 * m.y2 <= 4800 * m.t`. -/
def copperScaled (y1 y2 t : ℚ) : Prop := 4 * y1 + 2 * y2 ≤ 4800 * t

/-- `m.frac`: `m.variable_cost + m.fixed_cost * m.t == 1`. -/
def fracNormalization (y1 y2 t : ℚ) : Prop :=
  variable_cost y1 y2 + fixed_cost * t = 1

/-- Feasible set of `BIM_with_revenues_over_costs`: the three variable domains
plus the four scaled resource constraints and the normalization equality.
The linearized objective is `m.revenue`, i.e. `revenue y1 y2`. -/
def fracFeasible (y1 y2 t : ℚ) : Prop :=
  Domain.holds .NonNegativeReals y1 ∧ Domain.holds .NonNegativeReals y2 ∧
  Domain.holds .PositiveReals t ∧
  siliconScaled y1 y2 t ∧ germaniumScaled y1 y2 t ∧ plasticScaled y1 y2 t ∧
  copperScaled y1 y2 t ∧ fracNormalization y1 y2 t

/-- Modelled from the spec: the original fractional objective being
linearized, the efficiency: revenue divided by total cost.  The notebook
prints it after solving as `profit / (variable_cost + fixed_cost * t)`
evaluated at the recovered point `x = y / t`. -/
def efficiency (x1 x2 : ℚ) : ℚ :=
  revenue x1 x2 / (variable_cost x1 x2 + fixed_cost)

/-- Objective values attained by feasible points of the linearized model. -/
def fracValues : Set ℚ :=
  {v | ∃ y1 y2 t, fracFeasible y1 y2 t ∧ revenue y1 y2 = v}

/-- Efficiency values attained by feasible points of the original problem. -/
def efficiencyValues : Set ℚ :=
  {v | ∃ x1 x2, linearFeasible x1 x2 ∧ efficiency x1 x2 = v}

lemma linear_of_frac {y1 y2 t : ℚ} (h : fracFeasible y1 y2 t) :
    linearFeasible (y1 / t) (y2 / t) ∧
      revenue y1 y2 = efficiency (y1 / t) (y2 / t) := by
  obtain ⟨hy1, hy2, ht, hsi, hge, hpl, hcu, hn⟩ := h
  simp only [Domain.holds] at hy1 hy2 ht
  simp only [siliconScaled, germaniumScaled, plasticScaled, copperScaled,
    fracNormalization, variable_cost, fixed_cost] at hsi hge hpl hcu hn
  have ht0 : t ≠ 0 := ne_of_gt ht
  constructor
  · refine ⟨?_, ?_, ?_, ?_, ?_, ?_⟩
    · exact div_nonneg hy1 ht.le
    · exact div_nonneg hy2 ht.le
    · show y1 / t ≤ 1000
      rw [div_le_iff ht]; linarith
    · show y2 / t ≤ 1500
      rw [div_le_iff ht]; linarith
    · show y1 / t + y2 / t ≤ 1750
      rw [div_add_div_same, div_le_iff ht]; linarith
    · show 4 * (y1 / t) + 2 * (y2 / t) ≤ 4800
      have hrw : 4 * (y1 / t) + 2 * (y2 / t) = (4 * y1 + 2 * y2) / t := by
        field_simp
      rw [hrw, div_le_iff ht]; linarith
  · simp only [efficiency, revenue, variable_cost, fixed_cost]
    have hden : (7 : ℚ) / 6 * (y1 / t) + 5 / 6 * (y2 / t) + 100 = 1 / t := by
      have hcollect : (7 : ℚ) / 6 * (y1 / t) + 5 / 6 * (y2 / t) + 100 =
          (7 / 6 * y1 + 5 / 6 * y2 + 100 * t) / t := by
        field_simp; ring
      rw [hcollect]
      have hone : (7 : ℚ) / 6 * y1 + 5 / 6 * y2 + 100 * t = 1 := by linarith
      rw [hone]
    rw [hden]
    have hnum : (12 : ℚ) * (y1 / t) + 9 * (y2 / t) = (12 * y1 + 9 * y2) / t := by
      field_simp
    rw [hnum]
    field_simp

lemma frac_of_linear {x1 x2 : ℚ} (h : linearFeasible x1 x2) :
    ∃ y1 y2 t, fracFeasible y1 y2 t ∧ y1 / t = x1 ∧ y2 / t = x2 ∧
      revenue y1 y2 = efficiency x1 x2 := by
  obtain ⟨hx1, hx2, hsi, hge, hpl, hcu⟩ := h
  simp only [Domain.holds] at hx1 hx2
  simp only [silicon, germanium, plastic, copper] at hsi hge hpl hcu
  have hdpos : (0 : ℚ) < 7 / 6 * x1 + 5 / 6 * x2 + 100 := by linarith
  have hd0 : (7 : ℚ) / 6 * x1 + 5 / 6 * x2 + 100 ≠ 0 := ne_of_gt hdpos
  refine ⟨x1 / (7 / 6 * x1 + 5 / 6 * x2 + 100),
    x2 / (7 / 6 * x1 + 5 / 6 * x2 + 100),
    1 / (7 / 6 * x1 + 5 / 6 * x2 + 100), ?_, ?_, ?_, ?_⟩
  · refine ⟨div_nonneg hx1 hdpos.le, div_nonneg hx2 hdpos.le,
      by simp only [Domain.holds]; positivity, ?_, ?_, ?_, ?_, ?_⟩
    · show x1 / (7 / 6 * x1 + 5 / 6 * x2 + 100) ≤
        1000 * (1 / (7 / 6 * x1 + 5 / 6 * x2 + 100))
      rw [mul_one_div, div_le_div_iff hdpos hdpos]
      nlinarith
    · show x2 / (7 / 6 * x1 + 5 / 6 * x2 + 100) ≤
        1500 * (1 / (7 / 6 * x1 + 5 / 6 * x2 + 100))
      rw [mul_one_div, div_le_div_iff hdpos hdpos]
      nlinarith
    · show x1 / (7 / 6 * x1 + 5 / 6 * x2 + 100) +
          x2 / (7 / 6 * x1 + 5 / 6 * x2 + 100) ≤
        1750 * (1 / (7 / 6 * x1 + 5 / 6 * x2 + 100))
      rw [div_add_div_same, mul_one_div, div_le_div_iff hdpos hdpos]
      nlinarith
    · show 4 * (x1 / (7 / 6 * x1 + 5 / 6 * x2 + 100)) +
          2 * (x2 / (7 / 6 * x1 + 5 / 6 * x2 + 100)) ≤
        4800 * (1 / (7 / 6 * x1 + 5 / 6 * x2 + 100))
      have hrw : 4 * (x1 / (7 / 6 * x1 + 5 / 6 * x2 + 100)) +
          2 * (x2 / (7 / 6 * x1 + 5 / 6 * x2 + 100)) =
          (4 * x1 + 2 * x2) / (7 / 6 * x1 + 5 / 6 * x2 + 100) := by
        field_simp; ring
      rw [hrw, mul_one_div, div_le_div_iff hdpos hdpos]
      nlinarith
    · show variable_cost (x1 / (7 / 6 * x1 + 5 / 6 * x2 + 100))
          (x2 / (7 / 6 * x1 + 5 / 6 * x2 + 100)) +
        fixed_cost * (1 / (7 / 6 * x1 + 5 / 6 * x2 + 100)) = 1
      simp only [variable_cost, fixed_cost]
      field_simp
      ring
  · field_simp
  · field_simp
  · simp only [revenue, efficiency, variable_cost, fixed_cost]
    field_simp
    ring

/-- **C2.** For the linearized model `BIM_with_revenues_over_costs`, the point
`(y1, y2, t) = (30/197, 180/197, 3/4925)` is feasible and recovers
`(x1, x2) = (y1/t, y2/t) = (250, 1500)`; its objective value `1980/197`
(≈ 10.051, i.e. `16500 / (9850/6)`) is the greatest attainable value; the
efficiency ratio at `(250, 1500)` equals that same value; and every optimal
feasible point of the linearized model recovers `(250, 1500)`. -/
theorem claim_C2 :
    fracFeasible (30 / 197) (180 / 197) (3 / 4925) ∧
    ((30 : ℚ) / 197) / (3 / 4925) = 250 ∧
    ((180 : ℚ) / 197) / (3 / 4925) = 1500 ∧
    revenue (30 / 197) (180 / 197) = 1980 / 197 ∧
    IsGreatest fracValues (1980 / 197) ∧
    efficiency 250 1500 = 1980 / 197 ∧
    ∀ y1 y2 t : ℚ, fracFeasible y1 y2 t → revenue y1 y2 = 1980 / 197 →
      y1 / t = 250 ∧ y2 / t = 1500 := by
  have hfeas : fracFeasible (30 / 197) (180 / 197) (3 / 4925) := by
    refine ⟨?_, ?_, ?_, ?_, ?_, ?_, ?_, ?_⟩ <;>
      norm_num [Domain.holds, siliconScaled, germaniumScaled, plasticScaled,
        copperScaled, fracNormalization, variable_cost, fixed_cost]
  refine ⟨hfeas, by norm_num, by norm_num,
    by norm_num [revenue], ⟨?_, ?_⟩,
    by norm_num [efficiency, revenue, variable_cost, fixed_cost], ?_⟩
  · exact ⟨30 / 197, 180 / 197, 3 / 4925, hfeas, by norm_num [revenue]⟩
  · rintro v ⟨y1, y2, t, hf, rfl⟩
    obtain ⟨hy1, hy2, ht, hsi, hge, hpl, hcu, hn⟩ := hf
    simp only [Domain.holds] at hy1 hy2 ht
    simp only [siliconScaled, germaniumScaled, plasticScaled, copperScaled,
      fracNormalization, variable_cost, fixed_cost] at hsi hge hpl hcu hn
    simp only [revenue]
    linarith
  · intro y1 y2 t hf hrev
    obtain ⟨hy1, hy2, ht, hsi, hge, hpl, hcu, hn⟩ := hf
    simp only [Domain.holds] at hy1 hy2 ht
    simp only [siliconScaled, germaniumScaled, plasticScaled, copperScaled,
      fracNormalization, variable_cost, fixed_cost] at hsi hge hpl hcu hn
    simp only [revenue] at hrev
    have ht0 : t ≠ 0 := ne_of_gt ht
    have hy2t : y2 = 1500 * t := by linarith
    have hy1t : y1 = 250 * t := by linarith
    constructor
    · rw [hy1t]; field_simp
    · rw [hy2t]; field_simp

/-- Witness for C2: the uniqueness clause applied at the concrete optimal
point itself. -/
theorem claim_C2_witness :
    (30 : ℚ) / 197 / (3 / 4925) = 250 ∧ (180 : ℚ) / 197 / (3 / 4925) = 1500 :=
  claim_C2.2.2.2.2.2.2 (30 / 197) (180 / 197) (3 / 4925)
    claim_C2.1 claim_C2.2.2.2.1

/-- **C5.** The fractional-objective linearization is a correct change of
variables: every feasible `(y1, y2, t)` of the linearized model recovers a
feasible `(y1/t, y2/t)` of the original resource constraints whose efficiency
equals the linearized objective `12*y1 + 9*y2`; conversely every feasible
`(x1, x2)` arises this way; hence the two problems attain exactly the same
set of objective values (so they have the same optimal value and division by
`t` recovers an optimal `(x1, x2)` from an optimal `(y1, y2, t)`). -/
theorem claim_C5 :
    (∀ y1 y2 t : ℚ, fracFeasible y1 y2 t →
      linearFeasible (y1 / t) (y2 / t) ∧
        revenue y1 y2 = efficiency (y1 / t) (y2 / t)) ∧
    (∀ x1 x2 : ℚ, linearFeasible x1 x2 →
      ∃ y1 y2 t, fracFeasible y1 y2 t ∧ y1 / t = x1 ∧ y2 / t = x2 ∧
        revenue y1 y2 = efficiency x1 x2) ∧
    fracValues = efficiencyValues := by
  refine ⟨fun y1 y2 t h => linear_of_frac h, fun x1 x2 h => frac_of_linear h, ?_⟩
  ext v
  constructor
  · rintro ⟨y1, y2, t, hf, rfl⟩
    obtain ⟨hlin, heq⟩ := linear_of_frac hf
    exact ⟨y1 / t, y2 / t, hlin, heq.symm⟩
  · rintro ⟨x1, x2, hlin, rfl⟩
    obtain ⟨y1, y2, t, hf, _, _, heq⟩ := frac_of_linear hlin
    exact ⟨y1, y2, t, hf, heq⟩

/-- Witness for C5: the reverse direction applied at the concrete feasible
point `(0, 0)` of the original constraints. -/
theorem claim_C5_witness :
    ∃ y1 y2 t : ℚ, fracFeasible y1 y2 t ∧ y1 / t = 0 ∧ y2 / t = 0 ∧
      revenue y1 y2 = efficiency 0 0 :=
  claim_C5.2.1 0 0
    (by norm_num [linearFeasible, silicon, germanium, plastic, copper, Domain.holds])

/-! ### Notebook 04: `BIM_maxmin` -/

/-- The components of the Pyomo model returned by `BIM_maxmin(costs)`:
the domains of `x1`, `x2`, `z` and the `m.maxmin` constraint list, recording
the coefficient pair of each inequality `z <= c1 * x1 + c2 * x2`. -/
structure MaxminModel where
  x1Domain : Domain
  x2Domain : Domain
  zDomain : Domain
  maxmin : List (ℚ × ℚ)

/-- `BIM_maxmin(costs)`: `x1`, `x2` are `NonNegativeReals`, `z` is a bare
`pyo.Var()` (domain `Reals`), and the loop
`for c1, c2 in costs: m.maxmin.add(z <= c1*x1 + c2*x2)` appends one
constraint per cost pair to the initially empty `ConstraintList`. -/
def BIM_maxmin (costs : List (ℚ × ℚ)) : MaxminModel :=
  { x1Domain := .NonNegativeReals
    x2Domain := .NonNegativeReals
    zDomain := .Reals
    maxmin := costs.foldl (fun acc c => acc ++ [c]) [] }

/-- Meaning of one entry of the `m.maxmin` constraint list. -/
def maxminConstraint (c : ℚ × ℚ) (x1 x2 z : ℚ) : Prop :=
  z ≤ c.1 * x1 + c.2 * x2

/-- Feasible set of `BIM_maxmin(costs)`: the three variable domains, the
constraint list, and the four resource constraints.  The objective is
`m.z`, maximized. -/
def maxminFeasible (costs : List (ℚ × ℚ)) (x1 x2 z : ℚ) : Prop :=
  Domain.holds (BIM_maxmin costs).x1Domain x1 ∧
  Domain.holds (BIM_maxmin costs).x2Domain x2 ∧
  Domain.holds (BIM_maxmin costs).zDomain z ∧
  (∀ c ∈ (BIM_maxmin costs).maxmin, maxminConstraint c x1 x2 z) ∧
  silicon x1 x2 ∧ germanium x1 x2 ∧ plastic x1 x2 ∧ copper x1 x2

/-- Objective values attained by feasible points of `BIM_maxmin(costs)`. -/
def maxminValues (costs : List (ℚ × ℚ)) : Set ℚ :=
  {z | ∃ x1 x2, maxminFeasible costs x1 x2 z}

/-- Variable domains of `BIM_maxmin(costs)`, in declaration order. -/
def maxminVarDomains (costs : List (ℚ × ℚ)) : List Domain :=
  [(BIM_maxmin costs).x1Domain, (BIM_maxmin costs).x2Domain,
   (BIM_maxmin costs).zDomain]

/-- Worst-case revenue of `(x1, x2)` over the scenarios `c :: cs`. -/
def scenarioMin (x1 x2 : ℚ) (c : ℚ × ℚ) (cs : List (ℚ × ℚ)) : ℚ :=
  cs.foldr (fun d acc => min (d.1 * x1 + d.2 * x2) acc) (c.1 * x1 + c.2 * x2)

lemma foldl_append_eq (l : List (ℚ × ℚ)) :
    ∀ acc : List (ℚ × ℚ), l.foldl (fun acc c => acc ++ [c]) acc = acc ++ l := by
  induction l with
  | nil => intro acc; simp
  | cons c cs ih => intro acc; simp [List.foldl_cons, ih]

/-- The constraint list of `BIM_maxmin(costs)` is exactly `costs`. -/
lemma BIM_maxmin_list (costs : List (ℚ × ℚ)) :
    (BIM_maxmin costs).maxmin = costs := by
  simp [BIM_maxmin, foldl_append_eq]

lemma scenarioMin_cons (x1 x2 : ℚ) (c d : ℚ × ℚ) (cs : List (ℚ × ℚ)) :
    scenarioMin x1 x2 c (d :: cs) =
      min (d.1 * x1 + d.2 * x2) (scenarioMin x1 x2 c cs) := rfl

lemma scenarioMin_le (x1 x2 : ℚ) (c : ℚ × ℚ) (cs : List (ℚ × ℚ)) :
    ∀ d ∈ c :: cs, scenarioMin x1 x2 c cs ≤ d.1 * x1 + d.2 * x2 := by
  induction cs with
  | nil =>
    intro d hd
    rcases List.mem_cons.mp hd with h | h
    · subst h; exact le_refl _
    · cases h
  | cons e es ih =>
    intro d hd
    rw [scenarioMin_cons]
    rcases List.mem_cons.mp hd with h | h
    · subst h
      exact le_trans (min_le_right _ _) (ih d (List.mem_cons_self _ _))
    · rcases List.mem_cons.mp h with h2 | h2
      · subst h2; exact min_le_left _ _
      · exact le_trans (min_le_right _ _) (ih d (List.mem_cons_of_mem _ h2))

lemma le_scenarioMin (x1 x2 z : ℚ) (c : ℚ × ℚ) (cs : List (ℚ × ℚ))
    (h : ∀ d ∈ c :: cs, z ≤ d.1 * x1 + d.2 * x2) :
    z ≤ scenarioMin x1 x2 c cs := by
  induction cs with
  | nil => exact h c (List.mem_cons_self _ _)
  | cons e es ih =>
    rw [scenarioMin_cons]
    refine le_min (h e (List.mem_cons_of_mem _ (List.mem_cons_self _ _))) (ih ?_)
    intro d hd
    rcases List.mem_cons.mp hd with h2 | h2
    · subst h2; exact h d (List.mem_cons_self _ _)
    · exact h d (List.mem_cons_of_mem _ (List.mem_cons_of_mem _ h2))

/-- Feasibility of `BIM_maxmin (c :: cs)` at `(x1, x2, z)` is feasibility of
the resource constraints plus `z` being at most the worst-case revenue. -/
lemma maxminFeasible_iff (c : ℚ × ℚ) (cs : List (ℚ × ℚ)) (x1 x2 z : ℚ) :
    maxminFeasible (c :: cs) x1 x2 z ↔
      linearFeasible x1 x2 ∧ z ≤ scenarioMin x1 x2 c cs := by
  unfold maxminFeasible linearFeasible
  rw [BIM_maxmin_list]
  constructor
  · rintro ⟨h1, h2, -, hall, h3, h4, h5, h6⟩
    exact ⟨⟨h1, h2, h3, h4, h5, h6⟩,
      le_scenarioMin x1 x2 z c cs (fun d hd => hall d hd)⟩
  · rintro ⟨⟨h1, h2, h3, h4, h5, h6⟩, hz⟩
    exact ⟨h1, h2, trivial, fun d hd =>
      le_trans hz (scenarioMin_le x1 x2 c cs d hd), h3, h4, h5, h6⟩

/-- Shared optimum of the worked maxmin example: `17500` is the greatest
objective value of `BIM_maxmin([[12, 9], [11, 10], [8, 11]])`. -/
lemma maxmin_example_isGreatest :
    IsGreatest (maxminValues [(12, 9), (11, 10), (8, 11)]) 17500 := by
  constructor
  · refine ⟨1750 / 3, 3500 / 3, ?_⟩
    rw [maxminFeasible_iff]
    constructor
    · norm_num [linearFeasible, silicon, germanium, plastic, copper, Domain.holds]
    · rw [show ((11:ℚ), (10:ℚ)) :: [((8:ℚ), (11:ℚ))] = [((11:ℚ), (10:ℚ)), ((8:ℚ), (11:ℚ))] from rfl]
      norm_num [scenarioMin]
  · rintro v ⟨x1, x2, hf⟩
    rw [maxminFeasible_iff] at hf
    obtain ⟨⟨hx1, hx2, hsi, hge, hpl, hcu⟩, hz⟩ := hf
    simp only [Domain.holds] at hx1 hx2
    simp only [silicon, germanium, plastic, copper] at hsi hge hpl hcu
    have h1 : v ≤ 12 * x1 + 9 * x2 :=
      le_trans hz (scenarioMin_le x1 x2 _ _ (12, 9) (by norm_num))
    have h3 : v ≤ 8 * x1 + 11 * x2 :=
      le_trans hz (scenarioMin_le x1 x2 _ _ (8, 11) (by norm_num))
    linarith

/-- Shared feasible point of the worked maxmin example. -/
lemma maxmin_example_feasible :
    maxminFeasible [(12, 9), (11, 10), (8, 11)] (1750 / 3) (3500 / 3) 17500 := by
  rw [maxminFeasible_iff]
  constructor
  · norm_num [linearFeasible, silicon, germanium, plastic, copper, Domain.holds]
  · rw [show ((11:ℚ), (10:ℚ)) :: [((8:ℚ), (11:ℚ))] = [((11:ℚ), (10:ℚ)), ((8:ℚ), (11:ℚ))] from rfl]
    norm_num [scenarioMin]

/-- **C3.** For `BIM_maxmin([[12, 9], [11, 10], [8, 11]])`, the point
`x = (1750/3, 3500/3)` with `z = 17500` is feasible, `17500` is the greatest
attainable objective value (the worst-case revenue), and any feasible point
attaining `z = 17500` has `x = (1750/3, 3500/3)`. -/
theorem claim_C3 :
    maxminFeasible [(12, 9), (11, 10), (8, 11)] (1750 / 3) (3500 / 3) 17500 ∧
    IsGreatest (maxminValues [(12, 9), (11, 10), (8, 11)]) 17500 ∧
    ∀ x1 x2 : ℚ, maxminFeasible [(12, 9), (11, 10), (8, 11)] x1 x2 17500 →
      x1 = 1750 / 3 ∧ x2 = 3500 / 3 := by
  refine ⟨maxmin_example_feasible, maxmin_example_isGreatest, ?_⟩
  intro x1 x2 hf
  rw [maxminFeasible_iff] at hf
  obtain ⟨⟨hx1, hx2, hsi, hge, hpl, hcu⟩, hz⟩ := hf
  simp only [Domain.holds] at hx1 hx2
  simp only [silicon, germanium, plastic, copper] at hsi hge hpl hcu
  have h1 : (17500 : ℚ) ≤ 12 * x1 + 9 * x2 :=
    le_trans hz (scenarioMin_le x1 x2 _ _ (12, 9) (by norm_num))
  have h3 : (17500 : ℚ) ≤ 8 * x1 + 11 * x2 :=
    le_trans hz (scenarioMin_le x1 x2 _ _ (8, 11) (by norm_num))
  constructor <;> linarith

/-- Witness for C3: the uniqueness clause applied at the concrete optimal
point itself. -/
theorem claim_C3_witness :
    (1750 : ℚ) / 3 = 1750 / 3 ∧ (3500 : ℚ) / 3 = 3500 / 3 :=
  claim_C3.2.2 (1750 / 3) (3500 / 3) maxmin_example_feasible

/-- **C4.** The maximin linearization is equivalent to the original maximin
problem: the model has exactly one inequality `z <= c1*x1 + c2*x2` per cost
pair (its constraint list is exactly `costs`); for every nonempty scenario
list and resource-feasible `(x1, x2)`, the greatest feasible `z` is the
worst-case revenue `min over costs of c1*x1 + c2*x2`; hence a value is
optimal for `BIM_maxmin(costs)` exactly when it is the greatest worst-case
revenue over the resource-feasible region. -/
theorem claim_C4 :
    (∀ costs : List (ℚ × ℚ), (BIM_maxmin costs).maxmin = costs ∧
      (BIM_maxmin costs).maxmin.length = costs.length) ∧
    (∀ (c : ℚ × ℚ) (cs : List (ℚ × ℚ)) (x1 x2 : ℚ), linearFeasible x1 x2 →
      IsGreatest {z | maxminFeasible (c :: cs) x1 x2 z} (scenarioMin x1 x2 c cs)) ∧
    (∀ (c : ℚ × ℚ) (cs : List (ℚ × ℚ)) (v : ℚ),
      IsGreatest (maxminValues (c :: cs)) v ↔
        IsGreatest {w | ∃ x1 x2, linearFeasible x1 x2 ∧
          w = scenarioMin x1 x2 c cs} v) := by
  refine ⟨fun costs => ⟨BIM_maxmin_list costs, by rw [BIM_maxmin_list]⟩, ?_, ?_⟩
  · intro c cs x1 x2 hlin
    constructor
    · show maxminFeasible (c :: cs) x1 x2 (scenarioMin x1 x2 c cs)
      rw [maxminFeasible_iff]
      exact ⟨hlin, le_refl _⟩
    · rintro z hz
      rw [Set.mem_setOf_eq, maxminFeasible_iff] at hz
      exact hz.2
  · intro c cs v
    constructor
    · rintro ⟨⟨x1, x2, hf⟩, hub⟩
      rw [maxminFeasible_iff] at hf
      obtain ⟨hlin, hle⟩ := hf
      have hmem : scenarioMin x1 x2 c cs ∈ maxminValues (c :: cs) :=
        ⟨x1, x2, (maxminFeasible_iff c cs x1 x2 _).mpr ⟨hlin, le_refl _⟩⟩
      have : scenarioMin x1 x2 c cs ≤ v := hub hmem
      have hveq : v = scenarioMin x1 x2 c cs := le_antisymm hle this
      refine ⟨⟨x1, x2, hlin, hveq⟩, ?_⟩
      rintro w ⟨u1, u2, hu, rfl⟩
      exact hub ⟨u1, u2, (maxminFeasible_iff c cs u1 u2 _).mpr ⟨hu, le_refl _⟩⟩
    · rintro ⟨⟨x1, x2, hlin, rfl⟩, hub⟩
      refine ⟨⟨x1, x2, (maxminFeasible_iff c cs x1 x2 _).mpr ⟨hlin, le_refl _⟩⟩, ?_⟩
      rintro w ⟨u1, u2, hu⟩
      rw [maxminFeasible_iff] at hu
      exact le_trans hu.2 (hub ⟨u1, u2, hu.1, rfl⟩)

/-- Witness for C4: the greatest-feasible-`z` clause applied at the single
scenario `(12, 9)` and the resource-feasible point `(0, 0)`. -/
theorem claim_C4_witness :
    IsGreatest {z | maxminFeasible [(12, 9)] 0 0 z} (scenarioMin 0 0 (12, 9) []) :=
  claim_C4.2.1 (12, 9) [] 0 0
    (by norm_num [linearFeasible, silicon, germanium, plastic, copper, Domain.holds])

/-- **C9.** For the empty scenario list, `BIM_maxmin([])` has an empty
constraint list (no constraint involving `z`), and its objective is
unbounded above: every `M` is exceeded by some feasible point. -/
theorem claim_C9 :
    (BIM_maxmin []).maxmin = [] ∧
    ∀ M : ℚ, ∃ x1 x2 z, maxminFeasible [] x1 x2 z ∧ M < z := by
  refine ⟨BIM_maxmin_list [], ?_⟩
  intro M
  refine ⟨0, 0, M + 1, ?_, by linarith⟩
  unfold maxminFeasible
  rw [BIM_maxmin_list]
  refine ⟨by norm_num [BIM_maxmin, Domain.holds], by norm_num [BIM_maxmin, Domain.holds],
    by simp [BIM_maxmin, Domain.holds], by simp, ?_, ?_, ?_, ?_⟩ <;>
    norm_num [silicon, germanium, plastic, copper]

/-- Witness for C9: the unboundedness clause at `M = 0`. -/
theorem claim_C9_witness :
    ∃ x1 x2 z, maxminFeasible [] x1 x2 z ∧ (0 : ℚ) < z :=
  claim_C9.2 0

/-- **C10.** Adding a scenario can only decrease the optimum: whenever both
`BIM_maxmin(costs ++ [c])` and `BIM_maxmin(costs)` have greatest objective
values, the former is at most the latter. -/
theorem claim_C10 :
    ∀ (costs : List (ℚ × ℚ)) (c : ℚ × ℚ) (v w : ℚ),
      IsGreatest (maxminValues (costs ++ [c])) v →
      IsGreatest (maxminValues costs) w → v ≤ w := by
  intro costs c v w hv hw
  obtain ⟨⟨x1, x2, hf⟩, -⟩ := hv
  have hmem : v ∈ maxminValues costs := by
    obtain ⟨h1, h2, h3, hall, h4, h5, h6, h7⟩ := hf
    rw [BIM_maxmin_list] at hall
    refine ⟨x1, x2, ?_⟩
    unfold maxminFeasible
    rw [BIM_maxmin_list]
    simp only [BIM_maxmin] at h1 h2 h3 ⊢
    exact ⟨h1, h2, h3, fun d hd => hall d (List.mem_append_left _ hd),
      h4, h5, h6, h7⟩
  exact hw.2 hmem

/-- The duplicated worked example, used to witness C10. -/
lemma maxmin_example_dup_isGreatest :
    IsGreatest (maxminValues ([(12, 9), (11, 10), (8, 11)] ++ [(8, 11)])) 17500 := by
  constructor
  · refine ⟨1750 / 3, 3500 / 3, ?_⟩
    have h := maxmin_example_feasible
    obtain ⟨h1, h2, h3, hall, h4, h5, h6, h7⟩ := h
    rw [BIM_maxmin_list] at hall
    unfold maxminFeasible
    rw [BIM_maxmin_list]
    simp only [BIM_maxmin] at h1 h2 h3 ⊢
    refine ⟨h1, h2, h3, ?_, h4, h5, h6, h7⟩
    intro d hd
    rcases List.mem_append.mp hd with h | h
    · exact hall d h
    · rcases List.mem_cons.mp h with h2 | h2
      · subst h2
        exact hall (8, 11) (by norm_num)
      · cases h2
  · rintro v ⟨x1, x2, hf⟩
    refine maxmin_example_isGreatest.2 ⟨x1, x2, ?_⟩
    obtain ⟨h1, h2, h3, hall, h4, h5, h6, h7⟩ := hf
    rw [BIM_maxmin_list] at hall
    unfold maxminFeasible
    rw [BIM_maxmin_list]
    exact ⟨h1, h2, h3, fun d hd => hall d (List.mem_append_left _ hd),
      h4, h5, h6, h7⟩

/-- Witness for C10: appending the duplicate scenario `(8, 11)` to the worked
example leaves the optimum `17500`, and indeed `17500 ≤ 17500`. -/
theorem claim_C10_witness : (17500 : ℚ) ≤ 17500 :=
  claim_C10 [(12, 9), (11, 10), (8, 11)] (8, 11) 17500 17500
    maxmin_example_dup_isGreatest maxmin_example_isGreatest

/-! ### Variable domains across all models (claim C6) -/

/-- **C6 (amended).** Every declared variable of the three models is
constrained to be nonnegative, except the auxiliary `z` of `BIM_maxmin`,
which is a bare `pyo.Var()` with the unconstrained domain `Reals`: the
`x1`, `x2` of `BIM_with_revenues_minus_costs`, the `y1`, `y2` of
`BIM_with_revenues_over_costs` and the `x1`, `x2` of every `BIM_maxmin(costs)`
admit only values `≥ 0`, and `t` only values `> 0` (hence `≥ 0`); but the
domain of `z` admits every rational. -/
theorem claim_C6 :
    (∀ d ∈ linearVarDomains, ∀ v : ℚ, d.holds v → 0 ≤ v) ∧
    (∀ d ∈ fracVarDomains, ∀ v : ℚ, d.holds v → 0 ≤ v) ∧
    (∀ costs : List (ℚ × ℚ),
      (BIM_maxmin costs).x1Domain = Domain.NonNegativeReals ∧
      (BIM_maxmin costs).x2Domain = Domain.NonNegativeReals ∧
      (BIM_maxmin costs).zDomain = Domain.Reals) ∧
    (∀ v : ℚ, Domain.holds Domain.Reals v) := by
  refine ⟨?_, ?_, fun costs => ⟨rfl, rfl, rfl⟩, fun v => trivial⟩
  · intro d hd v hv
    simp only [linearVarDomains, List.mem_cons, List.not_mem_nil, or_false] at hd
    rcases hd with rfl | rfl <;> exact hv
  · intro d hd v hv
    simp only [fracVarDomains, List.mem_cons, List.not_mem_nil, or_false] at hd
    rcases hd with rfl | rfl | rfl
    · exact hv
    · exact hv
    · exact le_of_lt hv

/-- Witness for C6: the nonnegativity guarantees applied at the first linear
variable domain and the value `5`. -/
theorem claim_C6_witness : (0 : ℚ) ≤ 5 :=
  claim_C6.1 Domain.NonNegativeReals (by norm_num [linearVarDomains]) 5 (by norm_num [Domain.holds])

/-- Counterexample to C6 as stated: it is not true that every declared
variable of `BIM_maxmin([])` is constrained to be nonnegative — the domain of
`z` is `Reals`, which admits `-1`. -/
theorem claim_C6_cex :
    ¬ ∀ costs : List (ℚ × ℚ), ∀ d ∈ maxminVarDomains costs,
      ∀ v : ℚ, d.holds v → 0 ≤ v := by
  intro h
  have hz : Domain.Reals ∈ maxminVarDomains [] := by
    simp [maxminVarDomains, BIM_maxmin]
  have := h [] Domain.Reals hz (-1) trivial
  norm_num at this

/-! ### Top-level notebook flow (claims C7 and C8) -/

/-- The solver name selected by both notebooks: `solver = 'appsi_highs'`. -/
def solverName : String := "appsi_highs"

/-- The message of `assert SOLVER.available(), f"Solver {solver} is not
available."` with `solver = 'appsi_highs'`. -/
def assertMessage : String :=
  "Solver " ++ solverName ++ " is not available."

/-- The top-level actions a notebook performs, in order: asserting solver
availability, building a model (a call to a `BIM_*` constructor), and
solving a built model (`SOLVER.solve`). -/
inductive Act where
  | assertAvailable
  | buildModel
  | solve
deriving DecidableEq

/-- Notebook `04-bim-maxmin.ipynb`: the setup cell asserts availability, the
single code cell builds `BIM_maxmin([[12, 9], [11, 10], [8, 11]])` and solves
it once. -/
def maxminNotebookActs : List Act := [.assertAvailable, .buildModel, .solve]

/-- Notebook `05-bim-fractional.ipynb`: the setup cell asserts availability,
then `BIM_with_revenues_minus_costs` is built and solved, then
`BIM_with_revenues_over_costs` is built and solved. -/
def fractionalNotebookActs : List Act :=
  [.assertAvailable, .buildModel, .solve, .buildModel, .solve]

/-- Outcome of running a notebook: how many solves were performed and
whether an assertion error was raised. -/
structure RunResult where
  solves : Nat
  error : Option String
deriving DecidableEq

/-- Sequential semantics of the notebook actions: a failed availability
assertion raises its error immediately and nothing further runs. -/
def runActs (available : Bool) : List Act → RunResult
  | [] => ⟨0, none⟩
  | .assertAvailable :: rest =>
    if available then runActs available rest else ⟨0, some assertMessage⟩
  | .buildModel :: rest => runActs available rest
  | .solve :: rest =>
    let r := runActs available rest
    ⟨r.solves + 1, r.error⟩

/-- `true` when every solve action is preceded by an availability assertion
(`seen` records whether one has occurred yet). -/
def solvesAfterAssert (seen : Bool) : List Act → Bool
  | [] => true
  | .assertAvailable :: rest => solvesAfterAssert true rest
  | .buildModel :: rest => solvesAfterAssert seen rest
  | .solve :: rest => seen && solvesAfterAssert seen rest

/-- **C7.** In both notebooks the availability assertion is the first action
and precedes every solve; with the solver unavailable, the run raises the
error naming the solver (`appsi_highs`) and performs no solve; with the
solver available, the run performs all its solves and raises no error. -/
theorem claim_C7 :
    maxminNotebookActs.head? = some Act.assertAvailable ∧
    fractionalNotebookActs.head? = some Act.assertAvailable ∧
    solvesAfterAssert false maxminNotebookActs = true ∧
    solvesAfterAssert false fractionalNotebookActs = true ∧
    runActs false maxminNotebookActs = ⟨0, some assertMessage⟩ ∧
    runActs false fractionalNotebookActs = ⟨0, some assertMessage⟩ ∧
    runActs true maxminNotebookActs = ⟨1, none⟩ ∧
    runActs true fractionalNotebookActs = ⟨2, none⟩ ∧
    assertMessage = "Solver appsi_highs is not available." := by
  refine ⟨rfl, rfl, rfl, rfl, rfl, rfl, rfl, rfl, rfl⟩

/-- **C8 (amended).** Notebook `05-bim-fractional.ipynb` constructs and
solves exactly two linear programs, but notebook `04-bim-maxmin.ipynb`
constructs and solves exactly one. -/
theorem claim_C8 :
    maxminNotebookActs.count Act.buildModel = 1 ∧
    maxminNotebookActs.count Act.solve = 1 ∧
    fractionalNotebookActs.count Act.buildModel = 2 ∧
    fractionalNotebookActs.count Act.solve = 2 := by
  refine ⟨rfl, rfl, rfl, rfl⟩

/-- Counterexample to C8 as stated: it is not true that each of the two
notebooks constructs and solves exactly two linear programs — notebook 04
solves only one. -/
theorem claim_C8_cex :
    ¬ (maxminNotebookActs.count Act.solve = 2 ∧
       fractionalNotebookActs.count Act.solve = 2) := by
  intro h
  exact absurd h.1 (by decide)

end BIMBook
